import Mathlib

/-!
Verification of the openai-hub gateway (crate `openai-hub-core`).

The development shallowly embeds the parts of the source that the claims
touch: the key pool (`src/key.rs`), the ACL regex compiler
(`src/helpers.rs`), the ACL evaluator (`src/acl.rs`), the stream tee
(`src/helpers.rs`), the audit access and token layers
(`src/handler/audit/access.rs`, `src/handler/audit/tokens.rs`), the JWT
layer (`src/handler/jwt.rs`) and the error envelope (`src/error.rs`).

Compiled regexes of the `regex` crate are embedded as an abstract syntax
tree `RE` together with an executable Brzozowski-derivative matcher
`RE.isMatch` that follows the crate's default semantics: `.` matches any
character except a newline, and the pattern is matched against the whole
string only when it carries the explicit anchors the compiler always
emits, which is how the source uses `is_match`.  `regexParse` translates
the concrete pattern strings produced by the source into `RE`, modelling
`Regex::new` on the fragment of syntax those strings inhabit.
-/

namespace OpenAIHub

/-- Abstract syntax of the regex fragment used by the gateway: failure,
the empty word, a literal character, the dot (any character except a
newline, per the default semantics of the Rust `regex` crate), a
character class (positive or negated), concatenation, alternation and
Kleene star. -/
inductive RE : Type where
  | fail : RE
  | eps : RE
  | chr : Char → RE
  | dot : RE
  | cls : Bool → List Char → RE
  | cat : RE → RE → RE
  | alt : RE → RE → RE
  | star : RE → RE
deriving Repr, DecidableEq

/-- Nullability: whether the regex accepts the empty word. -/
def RE.nullable : RE → Bool
  | .fail => false
  | .eps => true
  | .chr _ => false
  | .dot => false
  | .cls _ _ => false
  | .cat a b => a.nullable && b.nullable
  | .alt a b => a.nullable || b.nullable
  | .star _ => true

/-- Smart concatenation, collapsing the absorbing and neutral elements. -/
def RE.mkCat : RE → RE → RE
  | .fail, _ => .fail
  | _, .fail => .fail
  | .eps, r => r
  | r, .eps => r
  | a, b => .cat a b

/-- Smart alternation, collapsing the neutral element. -/
def RE.mkAlt : RE → RE → RE
  | .fail, r => r
  | r, .fail => r
  | a, b => .alt a b

/-- Brzozowski derivative of a regex by one character.  The `dot` case
excludes the newline, and a negated class accepts every character not
listed (including the newline), following the Rust `regex` crate. -/
def RE.deriv : RE → Char → RE
  | .fail, _ => .fail
  | .eps, _ => .fail
  | .chr a, c => if a = c then .eps else .fail
  | .dot, c => if c = '\n' then .fail else .eps
  | .cls neg cs, c =>
      if (if neg then !(cs.contains c) else cs.contains c) then .eps else .fail
  | .cat a b, c =>
      if a.nullable then .mkAlt (.mkCat (a.deriv c) b) (b.deriv c)
      else .mkCat (a.deriv c) b
  | .alt a b, c => .mkAlt (a.deriv c) (b.deriv c)
  | .star a, c => .mkCat (a.deriv c) (.star a)

/-- Matching a character list: fold the derivative and test nullability. -/
def RE.matchL (r : RE) (l : List Char) : Bool :=
  (l.foldl RE.deriv r).nullable

/-- Matching a string against a (fully anchored) regex. -/
def RE.isMatch (r : RE) (s : String) : Bool :=
  r.matchL s.toList

/-- Drops `pre` from the front of `l` when `l` begins with it, the
embedding of `str::strip_prefix`. -/
def dropPre : List Char → List Char → Option (List Char)
  | [], l => some l
  | _ :: _, [] => none
  | p :: ps, c :: cs => if p = c then dropPre ps cs else none

/-- String form of `dropPre`. -/
def dropPreStr (pre s : String) : Option String :=
  (dropPre pre.toList s.toList).map (fun l => String.mk l)

/-- Postfix repetition operators `*`, `+` and `?` applied to a parsed
atom. -/
def parsePost : RE → List Char → RE × List Char
  | r, '*' :: rest => parsePost (RE.star r) rest
  | r, '+' :: rest => parsePost (RE.cat r (RE.star r)) rest
  | r, '?' :: rest => parsePost (RE.alt r RE.eps) rest
  | r, rest => (r, rest)

/-- Characters of a bracket class up to the closing bracket. -/
def parseClsChars : List Char → Option (List Char × List Char)
  | ']' :: rest => some ([], rest)
  | '\\' :: c :: rest => (parseClsChars rest).map (fun p => (c :: p.1, p.2))
  | c :: rest => (parseClsChars rest).map (fun p => (c :: p.1, p.2))
  | [] => none

mutual

/-- Alternation level of the pattern grammar. -/
def parseAlt : Nat → List Char → Option (RE × List Char)
  | 0, _ => none
  | fuel + 1, l =>
    match parseCat fuel l with
    | none => none
    | some (r, rest) =>
      match rest with
      | '|' :: rest2 =>
        match parseAlt fuel rest2 with
        | some (r2, rest3) => some (RE.alt r r2, rest3)
        | none => none
      | _ => some (r, rest)

/-- Concatenation level of the pattern grammar. -/
def parseCat : Nat → List Char → Option (RE × List Char)
  | 0, _ => none
  | fuel + 1, l =>
    match l with
    | [] => some (RE.eps, [])
    | ')' :: _ => some (RE.eps, l)
    | '|' :: _ => some (RE.eps, l)
    | _ =>
      match parseAtom fuel l with
      | none => none
      | some (r, rest) =>
        match parsePost r rest with
        | (r2, rest2) =>
          match parseCat fuel rest2 with
          | none => none
          | some (r3, rest3) => some (RE.cat r2 r3, rest3)

/-- Atom level of the pattern grammar: groups (plain, non-capturing and
named), classes, escapes, the dot and literal characters. -/
def parseAtom : Nat → List Char → Option (RE × List Char)
  | 0, _ => none
  | fuel + 1, l =>
    match l with
    | '(' :: '?' :: ':' :: rest =>
      match parseAlt fuel rest with
      | some (r, ')' :: rest2) => some (r, rest2)
      | _ => none
    | '(' :: '?' :: 'P' :: '<' :: rest =>
      match rest.dropWhile (fun c => c ≠ '>') with
      | '>' :: rest2 =>
        match parseAlt fuel rest2 with
        | some (r, ')' :: rest3) => some (r, rest3)
        | _ => none
      | _ => none
    | '(' :: rest =>
      match parseAlt fuel rest with
      | some (r, ')' :: rest2) => some (r, rest2)
      | _ => none
    | '[' :: '^' :: rest =>
      match parseClsChars rest with
      | some (cs, rest2) => some (RE.cls true cs, rest2)
      | none => none
    | '[' :: rest =>
      match parseClsChars rest with
      | some (cs, rest2) => some (RE.cls false cs, rest2)
      | none => none
    | '\\' :: c :: rest => some (RE.chr c, rest)
    | '.' :: rest => some (RE.dot, rest)
    | c :: rest =>
      if c = ')' ∨ c = '|' ∨ c = '*' ∨ c = '+' ∨ c = '?' then none
      else some (RE.chr c, rest)
    | [] => none

end

/-- Translation of an anchored pattern string into `RE`, modelling
`Regex::new` on the fragment of syntax the ACL compiler emits: the
pattern must start with the `^` anchor and end with the `$` anchor, and
the body is parsed by the grammar above. -/
def regexParse (pat : String) : Option RE :=
  match pat.toList with
  | '^' :: rest =>
    match rest.getLast? with
    | some '$' =>
      match parseAlt (4 * rest.length + 8) rest.dropLast with
      | some (r, []) => some r
      | _ => none
    | _ => none
  | _ => none

/-- Compilation followed by an `is_match` test: the embedding of
`Regex::new(pat)` followed by `regex.is_match(s)` for the anchored
patterns the gateway builds. -/
def rustRegexMatch (pat s : String) : Option Bool :=
  (regexParse pat).map (fun r => r.isMatch s)

/-! The string builders of `src/helpers.rs`.  `Regex::replace` in Rust
replaces only the FIRST match, so the escaping pass of both builders
escapes only the first special character of each input; the later
`str::replace` of the star replaces all occurrences. -/

/-- Special characters of `SPECIAL_CHARS_EXCEPT_START_REGEX`
(every regex metacharacter except the star). -/
def isSpecialW (c : Char) : Bool :=
  c = '.' ∨ c = '+' ∨ c = '?' ∨ c = '^' ∨ c = '$' ∨ c = '(' ∨ c = ')' ∨
    c = '[' ∨ c = ']' ∨ c = '{' ∨ c = '}' ∨ c = '|' ∨ c = '\\'

/-- Special characters of `SPECIAL_CHARS_EXCEPT_GROUP_REGEX`
(every regex metacharacter except the braces; the star IS special
here). -/
def isSpecialE (c : Char) : Bool :=
  c = '.' ∨ c = '+' ∨ c = '?' ∨ c = '*' ∨ c = '^' ∨ c = '$' ∨ c = '(' ∨
    c = ')' ∨ c = '[' ∨ c = ']' ∨ c = '|' ∨ c = '\\'

/-- Escape of the FIRST character satisfying `isSpec`, the embedding of
`Regex::replace(s, "\\$1")` (which rewrites only the first match). -/
def escapeFirst (isSpec : Char → Bool) : List Char → List Char
  | [] => []
  | c :: rest =>
      if isSpec c then '\\' :: c :: rest else c :: escapeFirst isSpec rest

/-- Expansion of every star into a dot-star, the embedding of
`str::replace(&wildcard, '*', ".*")` (which rewrites all
occurrences). -/
def starExpand : List Char → List Char
  | [] => []
  | '*' :: rest => '.' :: '*' :: starExpand rest
  | c :: rest => c :: starExpand rest

/-- Join of candidate pattern bodies with the alternation bar,
`Vec::join("|")`. -/
def joinBar : List (List Char) → List Char
  | [] => []
  | [x] => x
  | x :: xs => x ++ '|' :: joinBar xs

/-- Final anchoring applied by both builders: a leading caret and a
trailing dollar around the body. -/
def wrapAnchor (mid : List Char) : List Char :=
  ('^' :: mid) ++ ['$']

/-- Worker of `wildcards_to_regex`, carrying the accumulated candidate
list.  Each wildcard is first-escaped; when the escaped wildcard is the
bare star the builder short-circuits to the universal pattern; otherwise
every star becomes a dot-star and the candidate is wrapped in a
non-capturing group.  At the end the candidates are joined with bars and
the whole body is wrapped in a non-capturing group and anchored. -/
def wildcardsGo : List (List Char) → List (List Char) → List Char
  | [], acc =>
      wrapAnchor ('(' :: '?' :: ':' :: (joinBar acc.reverse ++ [')']))
  | w :: rest, acc =>
      let w1 := escapeFirst isSpecialW w
      if w1 = ['*'] then wrapAnchor ['.', '*']
      else
        wildcardsGo rest
          (('(' :: '?' :: ':' :: (starExpand w1 ++ [')'])) :: acc)

/-- Pattern string produced by `wildcards_to_regex` (the argument of its
final `Regex::new`). -/
def wildcardsToRegexString (ws : List String) : String :=
  String.mk (wildcardsGo (ws.map (fun w => w.toList)) [])

/-- Match of the pattern `/` `lbrace name rbrace` at the head of the
input, where `name` is one or more characters none of which is a slash
or a brace: on success, the suffix after the closing brace.  This is the
embedding of one match of `PATH_REGEX`. -/
def pathSegMatch : List Char → Option (List Char)
  | '/' :: '{' :: rest =>
    match rest.span (fun c => c ≠ '/' ∧ c ≠ '{' ∧ c ≠ '}') with
    | ([], _) => none
    | (_ :: _, '}' :: after) => some after
    | (_, _) => none
  | _ => none

/-- Replacement of the FIRST placeholder segment by the non-capturing
any-segment group, the embedding of `PATH_REGEX.replace(s, "/(?:[^/]+)")`
(which rewrites only the first match). -/
def replaceFirstPathSeg : List Char → List Char
  | [] => []
  | c :: rest =>
    match pathSegMatch (c :: rest) with
    | some after =>
        ('/' :: '(' :: '?' :: ':' :: '[' :: '^' :: '/' :: ']' :: '+' :: [')'])
          ++ after
    | none => c :: replaceFirstPathSeg rest

/-- Worker of `endpoints_to_regex`: each endpoint is first-escaped, its
first placeholder segment is rewritten, and the candidate is wrapped in
a non-capturing group; the candidates are then joined with bars, wrapped
and anchored exactly as for the wildcards. -/
def endpointsGo : List (List Char) → List (List Char) → List Char
  | [], acc =>
      wrapAnchor ('(' :: '?' :: ':' :: (joinBar acc.reverse ++ [')']))
  | e :: rest, acc =>
      endpointsGo rest
        (('(' :: '?' :: ':' ::
            (replaceFirstPathSeg (escapeFirst isSpecialE e) ++ [')'])) :: acc)

/-- Pattern string produced by `endpoints_to_regex`. -/
def endpointsToRegexString (es : List String) : String :=
  String.mk (endpointsGo (es.map (fun e => e.toList)) [])

/-- Matcher that the specification ascribes to one wildcard: literal
characters match themselves and a star matches any (possibly empty) run
of non-newline characters. -/
def wcMatch : List Char → List Char → Bool
  | [], [] => true
  | [], _ :: _ => false
  | '*' :: ps, cs =>
      wcMatch ps cs ||
        (match cs with
         | [] => false
         | c :: cs2 => c ≠ '\n' && wcMatch ('*' :: ps) cs2)
  | p :: ps, c :: cs => p = c && wcMatch ps cs
  | _ :: _, [] => false
termination_by ps cs => (ps.length, cs.length)

/-- Specification-side acceptance: the candidate matches at least one
wildcard of the list. -/
def specWildcardsMatch (ws : List String) (m : String) : Bool :=
  ws.any (fun w => wcMatch w.toList m.toList)

/-! The ACL evaluator of `src/acl.rs`.  A compiled `Regex` field is
embedded as its `is_match` predicate `String → Bool`, which is the only
capability `ApiAcl::validate` uses; the concrete deployment regex is
translated directly. -/

/-- Embedding of a compiled regex by its `is_match` predicate. -/
abbrev Matcher := String → Bool

/-- Parse of `regexParse "^.*$"`: the body of the universal pattern. -/
def reDotStar : RE := .cat (.star .dot) .eps

/-- Parse of `regexParse "^$"`: the body of the empty pattern. -/
def reEpsilon : RE := .eps

/-- Parse of `regexParse "^(?:)$"`: the pattern of an empty ruleset. -/
def reEmptyGroup : RE := .cat .eps .eps

/-- ModelOption of `src/acl.rs`: an allow regex, a disallow regex and
the switch for requests that omit the model. -/
structure ModelOption where
  allows : Matcher
  disallows : Matcher
  allow_omitted : Bool

/-- Default ModelOption (`impl Default for ModelOption`): `allows` is
the compiled pattern caret-dot-star-dollar, `disallows` is the compiled
pattern caret-dollar, and omission is forbidden. -/
def defaultModelOption : ModelOption :=
  { allows := reDotStar.isMatch
    disallows := reEpsilon.isMatch
    allow_omitted := false }

/-- Errors of the ACL evaluator.  HTTP methods are embedded as their
names. -/
inductive AclError : Type where
  | MethodNotAllowed : String → AclError
  | DeploymentNotAllowed : String → AclError
  | EndpointNotAllowed : String → String → AclError
  | ModelNotAllowed : String → AclError
  | MissingModel : AclError
deriving Repr, DecidableEq

/-- Status of an ACL error (`AclError::status_code`): 405 for a
forbidden method, 403 for everything else. -/
def AclError.statusCode : AclError → Nat
  | .MethodNotAllowed _ => 405
  | _ => 403

/-- Textual form of an ACL error (`impl ToString for AclError`). -/
def AclError.toMessage : AclError → String
  | .MethodNotAllowed m => "Method " ++ m ++ " not allowed"
  | .DeploymentNotAllowed id => "Deployment " ++ id ++ " not allowed"
  | .EndpointNotAllowed m e => "Endpoint " ++ m ++ " " ++ e ++ " not allowed"
  | .ModelNotAllowed m => "Model " ++ m ++ " not allowed"
  | .MissingModel => "Missing model"

/-- Error envelope of `src/error.rs`: a status code and a message (the
body serialises the message into the JSON envelope). -/
structure ErrorResponse where
  status : Nat
  message : String
deriving Repr, DecidableEq

/-- Conversion of an ACL error into the envelope
(`impl From for ErrorResponse`). -/
def ErrorResponse.fromAcl (e : AclError) : ErrorResponse :=
  { status := e.statusCode, message := e.toMessage }

/-- Minimal JSON value model for `serde_json::Value`. -/
inductive JVal : Type where
  | null : JVal
  | bool : Bool → JVal
  | num : Int → JVal
  | str : String → JVal
  | arr : List JVal → JVal
  | obj : List (String × JVal) → JVal

/-- Field lookup on an object (`Value::get`). -/
def JVal.get : JVal → String → Option JVal
  | .obj fields, k => (fields.find? (fun p => p.1 = k)).map (fun p => p.2)
  | _, _ => none

/-- String view (`Value::as_str`). -/
def JVal.asStr : JVal → Option String
  | .str s => some s
  | _ => none

/-- Boolean view (`Value::as_bool`). -/
def JVal.asBool : JVal → Option Bool
  | .bool b => some b
  | _ => none

/-- Validation of a candidate model name (`ModelOption::validate`):
an omitted model is accepted exactly when omission is allowed; a present
model is rejected when the disallow regex matches or the allow regex
does not. -/
def ModelOption.validate (o : ModelOption) :
    Option String → Except AclError Unit
  | none =>
      if o.allow_omitted then .ok () else .error .MissingModel
  | some m =>
      if o.disallows m || !(o.allows m) then .error (.ModelNotAllowed m)
      else .ok ()

/-- Capture of the deployment id, the embedding of
`DEPLOYMENT_ID_REGEX.captures(path)` for the pattern anchored
slash-engines-slash, a nonempty slash-free capture group, a slash and a
nonempty newline-free remainder, together with the suffix
`&path[id.end()..]` that `validate` keeps: on success, the pair of the
captured id and the stripped path. -/
def deploymentCaptureL (l : List Char) : Option (List Char × List Char) :=
  match dropPre "/engines/".toList l with
  | none => none
  | some rest =>
    let id := rest.takeWhile (fun c => c ≠ '/')
    let rem := rest.dropWhile (fun c => c ≠ '/')
    if id ≠ [] ∧ rem.head? = some '/' ∧ rem.tail ≠ []
        ∧ rem.tail.all (fun c => c ≠ '\n') then
      some (id, rem)
    else none

/-- String form of `deploymentCaptureL`. -/
def deploymentCapture (path : String) : Option (String × String) :=
  (deploymentCaptureL path.toList).map
    (fun p => (String.mk p.1, String.mk p.2))

/-- Selected model validator, the embedding of the boxed
`dyn ModelValidator` returned by `ApiAcl::validate`: either a
ModelOption found in the per-endpoint body map, or a path rule (whose
regex is kept as a matcher). -/
inductive ModelValidatorSel : Type where
  | viaBody : ModelOption → ModelValidatorSel
  | viaPath : Matcher → ModelOption → ModelValidatorSel

/-- Body validation of a selected validator.  A body-map ModelOption
checks the `model` field (read as a string when present); a path rule
inherits the trait's default implementation, which accepts every
body. -/
def ModelValidatorSel.validateBody :
    ModelValidatorSel → JVal → Except AclError Unit
  | .viaBody o, body => o.validate ((body.get "model").bind JVal.asStr)
  | .viaPath _ _, _ => .ok ()

/-- Access policy of `src/acl.rs`.  The hash maps are embedded as lookup
functions and the compiled regexes as matchers. -/
structure ApiAcl where
  whitelist : Bool
  methods : String → Option Bool
  allow_deployments : String → Bool
  endpoint : String → Option Matcher
  model_body : String → Option (String → Option ModelOption)
  model_path : String → Option (List (Matcher × ModelOption))

/-- Endpoint gate and validator selection of `ApiAcl::validate`, run on
the (possibly deployment-stripped) endpoint path: an absent per-method
regex counts as no match; the whitelist flag decides which side of the
match is rejected; on success the validator comes from the body map
first and otherwise from the first matching path rule. -/
def ApiAcl.validateEndpoint (acl : ApiAcl) (method endpoint : String) :
    Except AclError (Option ModelValidatorSel) :=
  let matched := ((acl.endpoint method).map (fun re => re endpoint)).getD false
  if (acl.whitelist && !matched) || (!acl.whitelist && matched) then
    .error (.EndpointNotAllowed method endpoint)
  else
    .ok (((acl.model_body method).bind
            (fun perMethod => (perMethod endpoint).map .viaBody)) <|>
         ((acl.model_path method).bind
            (fun rules =>
              (rules.find? (fun rule => rule.1 endpoint)).map
                (fun rule => .viaPath rule.1 rule.2))))

/-- Gate chain of `ApiAcl::validate`: the method gate, the deployment
gate (with prefix stripping), the endpoint gate and finally the
validator selection. -/
def ApiAcl.validate (acl : ApiAcl) (method : String) (path : String) :
    Except AclError (Option ModelValidatorSel) :=
  if !((acl.methods method).getD false) then
    .error (.MethodNotAllowed method)
  else
    match deploymentCaptureL path.toList with
    | some (idL, remL) =>
      let id := String.mk idL
      if !(acl.allow_deployments id) then
        .error (.DeploymentNotAllowed id)
      else
        acl.validateEndpoint method (String.mk remL)
    | none =>
        acl.validateEndpoint method path

/-- Body-validation step of `global_acl_layer`
(`src/src/handler/acl.rs`): the selected validator checks the parsed
JSON body and an ACL error becomes the error envelope. -/
def globalAclBodyCheck (v : ModelValidatorSel) (json : JVal) :
    Except ErrorResponse Unit :=
  (v.validateBody json).mapError ErrorResponse.fromAcl

/-! The key pool of `src/key.rs`.  The pool state is the credential
queue plus the semaphore's available permit count; the leased
credentials (held by live `KeyGuard` values) are tracked alongside.
`KeyPool::get` and `Drop for KeyGuard` are atomic transitions: the
source's permit acquisition, mutex-guarded queue operation and permit
release happen within one logical operation of the lease protocol. -/
structure PoolSt where
  keys : List String
  permits : Nat
  leased : List String
deriving Repr, DecidableEq

/-- Construction (`KeyPool::new`): the queue holds the credentials and
the semaphore starts with one permit per credential. -/
def poolNew (l : List String) : PoolSt :=
  { keys := l, permits := l.length, leased := [] }

/-- One acquisition (`KeyPool::get`): when a permit is available the
FRONT credential is popped and becomes leased; with no permit the
caller suspends (no transition). -/
def poolGet (st : PoolSt) : Option (String × PoolSt) :=
  if st.permits = 0 then none
  else
    match st.keys with
    | [] => none
    | k :: rest =>
        some (k, { keys := rest, permits := st.permits - 1,
                   leased := st.leased ++ [k] })

/-- Operations on the pool seen from outside: an acquisition, or the
drop of the guard holding credential `k`. -/
inductive PoolOp : Type where
  | acquire : PoolOp
  | release : String → PoolOp
deriving Repr, DecidableEq

/-- One transition.  A blocked acquisition and the drop of a guard that
does not exist leave the state unchanged.  A drop (`Drop for KeyGuard`)
pushes the credential to the TAIL of the queue and releases its
permit. -/
def poolStep (st : PoolSt) : PoolOp → PoolSt
  | .acquire =>
    match poolGet st with
    | some p => p.2
    | none => st
  | .release k =>
    if st.leased.contains k then
      { keys := st.keys ++ [k], permits := st.permits + 1,
        leased := st.leased.erase k }
    else st

/-- Execution of an operation sequence from a freshly built pool. -/
def poolRun (l : List String) (ops : List PoolOp) : PoolSt :=
  ops.foldl poolStep (poolNew l)

/-- Pool invariant for a pool built from `l`: leased plus available
permits equals the capacity, the queue length equals the available
permits, and the queue and the leases together hold exactly the original
credentials (as a multiset). -/
def poolInv (l : List String) (st : PoolSt) : Prop :=
  st.leased.length + st.permits = l.length ∧
    st.keys.length = st.permits ∧
    (st.keys ++ st.leased).Perm l

/-! The stream tee of `src/helpers.rs`.  The producer loop reads the
input chunks in order; every Ok chunk is cloned and sent to both
outputs from two freshly spawned tasks that the loop never awaits, and
every Err is sent inline (awaited) to the second output only (the
primary).  A spawned send may therefore be delivered at any later
point; the only order the runtime guarantees is that an inline send has
completed before the loop processes any later chunk, so no send
originating at a later loop position can be delivered before an
earlier inline one.  The embedding records each send with the loop
position it originates from and quantifies over every delivery order
per output — a permutation of that output's sends respecting exactly
this constraint.  Both consumers are assumed to keep receiving (a
dropped consumer only severs its own side). -/

/-- One send event of the tee: an Ok chunk sent from a spawned task, or
an error sent inline, tagged with the loop position it originates
from. -/
inductive TeeSend (E T : Type) : Type where
  | sendOk : Nat → T → TeeSend E T
  | sendErr : Nat → E → TeeSend E T
deriving DecidableEq, Repr

/-- Loop position a send originates from. -/
def TeeSend.originPos {E T : Type} : TeeSend E T → Nat
  | .sendOk p _ => p
  | .sendErr p _ => p

/-- Whether the send is the inline (awaited) error send of the loop;
the Ok sends run in spawned tasks. -/
def TeeSend.isInline {E T : Type} : TeeSend E T → Bool
  | .sendOk _ _ => false
  | .sendErr _ _ => true

/-- Chunk carried by a send, as the consumer receives it. -/
def TeeSend.payload {E T : Type} : TeeSend E T → Except E T
  | .sendOk _ t => .ok t
  | .sendErr _ e => .error e

/-- Sends issued towards the FIRST (secondary) output: one spawned Ok
send per Ok chunk, nothing for an error. -/
def teeSends1 {E T : Type} : Nat → List (Except E T) → List (TeeSend E T)
  | _, [] => []
  | i, .ok t :: rest => .sendOk i t :: teeSends1 (i + 1) rest
  | i, .error _ :: rest => teeSends1 (i + 1) rest

/-- Sends issued towards the SECOND (primary) output: one spawned Ok
send per Ok chunk and one inline error send per error. -/
def teeSends2 {E T : Type} : Nat → List (Except E T) → List (TeeSend E T)
  | _, [] => []
  | i, .ok t :: rest => .sendOk i t :: teeSends2 (i + 1) rest
  | i, .error e :: rest => .sendErr i e :: teeSends2 (i + 1) rest

/-- Chunk sequence a consumer observes for a delivery order. -/
def outChunks {E T : Type} (l : List (TeeSend E T)) : List (Except E T) :=
  l.map TeeSend.payload

/-- Admissibility of a delivery order on one output: a send delivered
before another is never a send that originates later than an inline
one — the loop awaited the inline send, so everything it issues
afterwards enters the channel after it.  Spawned sends carry no mutual
ordering guarantee. -/
def teeAdmissible {E T : Type} (d : List (TeeSend E T)) : Prop :=
  List.Pairwise
    (fun x y => ¬(y.isInline = true ∧ y.originPos < x.originPos)) d

/-- One execution of the tee: the delivery orders observed on the two
outputs. -/
structure TeeExec (E T : Type) : Type where
  out1 : List (TeeSend E T)
  out2 : List (TeeSend E T)

/-- Validity of an execution for an input stream: each output delivers
exactly the sends issued towards it (both consumers keep receiving), in
some admissible order. -/
def teeExecValid {E T : Type} (input : List (Except E T))
    (ex : TeeExec E T) : Prop :=
  ex.out1.Perm (teeSends1 0 input) ∧ ex.out2.Perm (teeSends2 0 input)
    ∧ teeAdmissible ex.out1 ∧ teeAdmissible ex.out2

/-- The in-loop-order execution: every send delivered in the order the
loop issued it. -/
def inOrderExec {E T : Type} (input : List (Except E T)) : TeeExec E T :=
  { out1 := teeSends1 0 input, out2 := teeSends2 0 input }

instance {E T : Type} (d : List (TeeSend E T)) :
    Decidable (teeAdmissible d) := by
  unfold teeAdmissible
  infer_instance

instance {E T : Type} [DecidableEq E] [DecidableEq T]
    (input : List (Except E T)) (ex : TeeExec E T) :
    Decidable (teeExecValid input ex) := by
  unfold teeExecValid
  infer_instance

/-- Ok test on a stream item. -/
def isOkB {E T : Type} : Except E T → Bool
  | .ok _ => true
  | .error _ => false

/-- Ok prefix of a stream: the chunks before the first error. -/
def okPre {E T : Type} (l : List (Except E T)) : List (Except E T) :=
  l.takeWhile isOkB

/-- Execution in which the inline error send of loop position 1
overtakes the still-pending spawned Ok send of position 0 on the
primary output: the loop spawns the two Ok sends, neither task has run
yet when the loop awaits the error send into the empty primary channel,
and the pending task delivers the Ok chunk afterwards. -/
def errOvertakeExec : TeeExec Unit Nat :=
  { out1 := [.sendOk 0 1], out2 := [.sendErr 1 (), .sendOk 0 1] }

/-- Execution in which the two spawned Ok sends towards the first
output run in swapped order (nothing orders two pending spawned tasks —
a last-in-first-out task slot or work stealing runs the later one
first) while the second output receives them in loop order. -/
def swappedOkExec : TeeExec Unit Nat :=
  { out1 := [.sendOk 1 2, .sendOk 0 1], out2 := [.sendOk 0 1, .sendOk 1 2] }

/-! Server-sent-event reconstruction of
`src/handler/audit/tokens.rs::get_events`.  The generic deserialisation
`serde_json::from_str` of the Rust function (generic in the event
payload type) is a parameter `parse`; the collect into a Result is the
monadic sequence over `Option`. -/

/-- Blank-line split of the response body, the embedding of
`str::split` at a double newline (leftmost non-overlapping). -/
def splitDbl : List Char → List (List Char)
  | '\n' :: '\n' :: rest => [] :: splitDbl rest
  | c :: rest =>
    match splitDbl rest with
    | [] => [[c]]
    | h :: t => (c :: h) :: t
  | [] => [[]]

/-- Frames that `get_events` tries to deserialise: the blank-line
separated chunks that carry the data marker, with the DONE sentinel
filtered out. -/
def framesOf (resBody : String) : List String :=
  (((splitDbl resBody.toList).map (fun l => String.mk l)).filterMap
      (fun ev => dropPreStr "data: " ev)).filter
    (fun ev => ev ≠ "[DONE]")

/-- Collection of deserialisation results, the embedding of
`collect::<Result<Vec<_>, _>>`: the first failure makes the whole
collection fail. -/
def collectOpt {T : Type} (parse : String → Option T) :
    List String → Option (List T)
  | [] => some []
  | f :: rest =>
    match parse f with
    | none => none
    | some t => (collectOpt parse rest).map (fun ts => t :: ts)

/-- Event reconstruction (`get_events`): every frame is deserialised and
the results are collected; one failure discards the whole list (the
function returns none). -/
def getEvents {T : Type} (parse : String → Option T) (resBody : String) :
    Option (List T) :=
  collectOpt parse (framesOf resBody)

/-! The middleware layers.  Header maps are embedded as association
lists of header name and value (values are strings; the source's
`to_str` conversions are modelled as always succeeding).  `HeaderMap`
lookups return the first entry of the name; the source always removes a
header before re-inserting it, so insertion appends. -/

/-- Header list. -/
abbrev Headers := List (String × String)

/-- First value of a header (`HeaderMap::get`). -/
def hGet (name : String) (hs : Headers) : Option String :=
  (hs.find? (fun p => p.1 = name)).map (fun p => p.2)

/-- Removal of a header (`HeaderMap::remove`). -/
def hRemove (name : String) (hs : Headers) : Headers :=
  hs.filter (fun p => p.1 ≠ name)

/-- Insertion of a header absent from the map (`HeaderMap::insert` after
the source's removal). -/
def hInsert (name value : String) (hs : Headers) : Headers :=
  hs ++ [(name, value)]

/-- Identity header name of `src/handler/jwt.rs`. -/
def authedHeaderName : String := "X-AUTHED-SUB"

/-- Ray-id header name of `src/handler/audit/access.rs`. -/
def rayIdHeaderName : String := "X-Ray-Id"

/-- Inbound request slice seen by the layers. -/
structure Req where
  method : String
  path : String
  headers : Headers
deriving Repr, DecidableEq

/-- Access-filter switches of `config/audit.rs`
(`AuditAccessFilterConfig`). -/
structure AccessFilters where
  enable : Bool
  method : Bool
  uri : Bool
  headers : Bool
  body : Bool
  response : Bool
deriving Repr, DecidableEq

/-- Access-record slice built by the access layer (`AccessLog`); the
captured bodies are outside this slice and do not feed any claimed
field. -/
structure AccessLogM where
  ray_id : String
  user : Option String
  method : Option String
  uri : Option String
  headers : Option Headers
deriving Repr, DecidableEq

/-- Request-side half of `audit_access_layer`
(`src/handler/audit/access.rs`, enabled case): a fresh ray id replaces
any inbound ray header, the record's user is copied from the identity
header AS RECEIVED, and method, path and headers are captured per
filter.  The function returns the record and the forwarded request. -/
def auditAccessCapture (cfg : AccessFilters) (rayId : String) (req : Req) :
    AccessLogM × Req :=
  let hs1 := hInsert rayIdHeaderName rayId (hRemove rayIdHeaderName req.headers)
  let log : AccessLogM :=
    { ray_id := rayId
      user := hGet authedHeaderName hs1
      method := if cfg.method then some req.method else none
      uri := if cfg.uri then some req.path else none
      headers := if cfg.headers then some hs1 else none }
  (log, { req with headers := hs1 })

/-- Registered claims used by the JWT layer. -/
structure JwtClaims where
  sub : Option String
  nbf : Option Nat
  exp : Option Nat

/-- Inner JWT layer (`jwt_auth_layer_inner`): the inbound identity
header is removed first; the bearer token is extracted from the
authorization header; signature verification is the abstract `verify`;
the not-before and expiry instants are checked against `now`; and the
verified subject (or the anonymous marker) is inserted as the identity
header of the forwarded request. -/
def jwtAuthLayerInner (verify : String → Option JwtClaims) (now : Nat)
    (req : Req) : Except Unit Req :=
  let hs := hRemove authedHeaderName req.headers
  match (hGet "Authorization" hs).bind (fun v => dropPreStr "Bearer " v) with
  | none => .error ()
  | some token =>
    match verify token with
    | none => .error ()
    | some claims =>
      if claims.nbf.elim false (fun nbf => decide (now < nbf)) then .error ()
      else if claims.exp.elim false (fun exp => decide (exp < now)) then .error ()
      else
        .ok { req with
                headers := hInsert authedHeaderName
                  (claims.sub.getD "anonymous") hs }

/-- Front of the composed pipeline per `Server::serve` (`src/lib.rs`):
the handler is layered with the ACL, then the JWT layer, then the audit
access layer, so at run time the access layer sees the request first and
the JWT layer second.  The function returns the access record built by
the outermost layer together with the JWT layer's outcome on the
forwarded request. -/
def servePipelineFront (cfg : AccessFilters) (rayId : String)
    (verify : String → Option JwtClaims) (now : Nat) (req : Req) :
    AccessLogM × Except Unit Req :=
  let p := auditAccessCapture cfg rayId req
  (p.1, jwtAuthLayerInner verify now p.2)

/-- Token-filter configuration of `config/audit.rs`
(`AuditTokensFilterConfig`). -/
inductive StreamTokensPolicy : Type where
  | Skip : StreamTokensPolicy
  | Reject : StreamTokensPolicy
  | Estimate : StreamTokensPolicy
deriving Repr, DecidableEq

/-- Token-accounting filter switches. -/
structure TokensFilters where
  enable : Bool
  endpoints : List String
  stream_tokens : StreamTokensPolicy
deriving Repr, DecidableEq

/-- Request slice seen by the token layer: the inbound request plus the
outcome of reading and JSON-parsing its body (`read_to_end` success and
`serde_json::from_slice` result). -/
structure TokReq where
  path : String
  headers : Headers
  bodyReadOk : Bool
  bodyJson : Option JVal

/-- Outcome of the request-side half of `audit_tokens_layer`: the layer
short-circuits to the inner handler, panics on an unwrap, rejects with
an error envelope, or proceeds into token accounting. -/
inductive TokensOutcome : Type where
  | passThrough : TokensOutcome
  | panics : TokensOutcome
  | reject : ErrorResponse → TokensOutcome
  | proceed : String → Option String → Bool → TokensOutcome
deriving Repr, DecidableEq

/-- Request-side half of `audit_tokens_layer`
(`src/handler/audit/tokens.rs`): the three enablement gates short-circuit;
the user header is read; the ray-id header is read THROUGH AN UNWRAP
(a missing header is a panic); the body is read and parsed with 400 on
failure; a missing model field is a 400; a stream request under the
reject policy is a 400; otherwise accounting proceeds with the ray id,
user and stream flag. -/
def auditTokensLayer (state : Option TokensFilters) (req : TokReq) :
    TokensOutcome :=
  match state with
  | none => .passThrough
  | some cfg =>
    if !cfg.enable then .passThrough
    else if !(cfg.endpoints.contains req.path) then .passThrough
    else
      let user := hGet authedHeaderName req.headers
      match hGet rayIdHeaderName req.headers with
      | none => .panics
      | some rayId =>
        if !req.bodyReadOk then
          .reject { status := 400, message := "failed to read body" }
        else
          match req.bodyJson with
          | none => .reject { status := 400, message := "failed to parse body" }
          | some body =>
            if (body.get "model").isNone then
              .reject { status := 400,
                        message := "missing \x27model\x27 field in request body" }
            else
              let stream := ((body.get "stream").bind JVal.asBool).getD false
              if stream && (cfg.stream_tokens = StreamTokensPolicy.Reject) then
                .reject { status := 400,
                          message := "stream requests are not allowed" }
              else .proceed rayId user stream

/-! Concrete instances used by witnesses and counterexamples. -/

/-- Sample policy: whitelist mode, only POST allowed, deployment prod-1
allowed, endpoint rule matching exactly the completions path, no model
rules. -/
def aclEx : ApiAcl :=
  { whitelist := true
    methods := fun m => if m = "POST" then some true else none
    allow_deployments := fun id => id = "prod-1"
    endpoint := fun m =>
      if m = "POST" then some (fun ep => ep = "/completions") else none
    model_body := fun _ => none
    model_path := fun _ => none }

/-- Sample policy with a body-map model rule on the chat endpoint,
carrying the default ModelOption. -/
def aclModelEx : ApiAcl :=
  { whitelist := true
    methods := fun m => if m = "POST" then some true else none
    allow_deployments := fun _ => false
    endpoint := fun m =>
      if m = "POST" then some (fun ep => ep = "/chat/completions") else none
    model_body := fun m =>
      if m = "POST" then
        some (fun ep =>
          if ep = "/chat/completions" then some defaultModelOption else none)
      else none
    model_path := fun _ => none }

/-- Concrete event deserialiser: the behaviour of
`serde_json::from_str::<StreamEvent<T>>` on the frames exercised by the
concrete response bodies below — it succeeds exactly on the complete
frame holding an empty choice list and fails on everything else
(in particular on the truncated fragment, which is not valid JSON). -/
def parseChoicesEv : String → Option Nat :=
  fun s => if s = "\x7b\"choices\":[]\x7d" then some 0 else none

/-- Stream body whose final frame is cut mid-JSON (the upstream closed
without the DONE sentinel). -/
def truncatedStreamBody : String :=
  "data: \x7b\"choices\":[]\x7d\n\ndata: \x7b\"cho"

/-- Stream body carrying a data frame after the DONE sentinel. -/
def frameAfterDoneBody : String :=
  "data: \x7b\"choices\":[]\x7d\n\ndata: [DONE]\n\ndata: \x7b\"choices\":[]\x7d"

/-- Well-formed stream body: one complete frame, then the DONE
sentinel, then the final separator. -/
def wellFormedStreamBody : String :=
  "data: \x7b\"choices\":[]\x7d\n\ndata: [DONE]\n\n"

/-! Shared lemmas. -/

theorem toList_mk (l : List Char) : (String.mk l).toList = l := rfl

theorem mk_append (a b : List Char) :
    String.mk (a ++ b) = String.mk a ++ String.mk b := rfl

theorem eq_empty_iff_toList (s : String) : s = "" ↔ s.toList = [] := by
  constructor
  · intro h
    subst h
    rfl
  · intro h
    have : String.mk s.toList = String.mk [] := by rw [h]
    exact this

theorem matchL_fail (l : List Char) : RE.matchL .fail l = false := by
  induction l with
  | nil => rfl
  | cons c l ih =>
    simpa [RE.matchL, RE.deriv] using ih

theorem matchL_epsEps (l : List Char) :
    RE.matchL (.cat .eps .eps) l = decide (l = []) := by
  cases l with
  | nil => rfl
  | cons c l =>
    simpa [RE.matchL, RE.deriv, RE.nullable, RE.mkCat, RE.mkAlt]
      using matchL_fail l

theorem matchL_eps (l : List Char) :
    RE.matchL .eps l = decide (l = []) := by
  cases l with
  | nil => rfl
  | cons c l =>
    simpa [RE.matchL, RE.deriv] using matchL_fail l

theorem matchL_starDot (l : List Char) :
    RE.matchL (.star .dot) l = l.all (fun c => c ≠ '\n') := by
  induction l with
  | nil => rfl
  | cons c l ih =>
    by_cases hc : c = '\n'
    · subst hc
      simpa [RE.matchL, RE.deriv, RE.mkCat] using matchL_fail l
    · simp only [RE.matchL, List.foldl_cons, RE.deriv, RE.mkCat,
        if_neg hc] at ih ⊢
      simpa [RE.matchL, hc] using ih

theorem matchL_dotStarEps (l : List Char) :
    RE.matchL (.cat (.star .dot) .eps) l = l.all (fun c => c ≠ '\n') := by
  cases l with
  | nil => rfl
  | cons c l =>
    by_cases hc : c = '\n'
    · subst hc
      simpa [RE.matchL, RE.deriv, RE.nullable, RE.mkCat, RE.mkAlt]
        using matchL_fail l
    · simpa [RE.matchL, RE.deriv, RE.nullable, RE.mkCat, RE.mkAlt, hc]
        using matchL_starDot l

theorem wrapAnchor_head (mid : List Char) :
    (wrapAnchor mid).head? = some '^' := rfl

theorem wrapAnchor_last (mid : List Char) :
    (wrapAnchor mid).getLast? = some '$' := by
  simpa [wrapAnchor] using List.getLast?_concat ('^' :: mid)

theorem wildcardsGo_anchored (ws acc : List (List Char)) :
    ∃ mid, wildcardsGo ws acc = wrapAnchor mid := by
  induction ws generalizing acc with
  | nil => exact ⟨_, rfl⟩
  | cons w rest ih =>
    by_cases h : escapeFirst isSpecialW w = ['*']
    · exact ⟨['.', '*'], by simp [wildcardsGo, h]⟩
    · simpa [wildcardsGo, h] using ih _

theorem endpointsGo_anchored (es acc : List (List Char)) :
    ∃ mid, endpointsGo es acc = wrapAnchor mid := by
  induction es generalizing acc with
  | nil => exact ⟨_, rfl⟩
  | cons e rest ih => simpa [endpointsGo] using ih _

theorem regexParse_emptyGroup : regexParse "^(?:)$" = some reEmptyGroup := by
  decide

/-- C3 counterexample: the empty ruleset does NOT compile to a matcher
that never matches — both builders produce the anchored empty group,
whose `is_match` test returns true on the empty input string. -/
theorem regex_compiler_empty_matches_empty_cex :
    rustRegexMatch (wildcardsToRegexString []) "" = some true
    ∧ rustRegexMatch (endpointsToRegexString []) "" = some true := by
  decide

/-- C3 (amended): every pattern produced by the ACL compiler is
anchored (it starts with the caret and ends with the dollar), and an
empty ruleset compiles to the anchored empty group, whose test returns
false for every NONEMPTY input string (it matches exactly the empty
string). -/
theorem regex_compiler_anchored_empty (ws es : List String) (s : String)
    (h : s ≠ "") :
    (wildcardsToRegexString ws).toList.head? = some '^'
    ∧ (wildcardsToRegexString ws).toList.getLast? = some '$'
    ∧ (endpointsToRegexString es).toList.head? = some '^'
    ∧ (endpointsToRegexString es).toList.getLast? = some '$'
    ∧ wildcardsToRegexString [] = "^(?:)$"
    ∧ endpointsToRegexString [] = "^(?:)$"
    ∧ rustRegexMatch (wildcardsToRegexString []) s = some false := by
  obtain ⟨mid1, h1⟩ := wildcardsGo_anchored (ws.map (fun w => w.toList)) []
  obtain ⟨mid2, h2⟩ := endpointsGo_anchored (es.map (fun e => e.toList)) []
  refine ⟨?_, ?_, ?_, ?_, by decide, by decide, ?_⟩
  · rw [wildcardsToRegexString, toList_mk, h1, wrapAnchor_head]
  · rw [wildcardsToRegexString, toList_mk, h1, wrapAnchor_last]
  · rw [endpointsToRegexString, toList_mk, h2, wrapAnchor_head]
  · rw [endpointsToRegexString, toList_mk, h2, wrapAnchor_last]
  · have he : wildcardsToRegexString [] = "^(?:)$" := by decide
    rw [he, rustRegexMatch, regexParse_emptyGroup]
    simp only [Option.map_some', RE.isMatch, reEmptyGroup, matchL_epsEps]
    have hne : s.toList ≠ [] := fun hh => h ((eq_empty_iff_toList s).mpr hh)
    simpa using hne

/-- C3 witness: the amended statement at a one-wildcard ruleset, a
one-endpoint ruleset and a nonempty candidate string. -/
theorem regex_compiler_anchored_empty_witness :
    (wildcardsToRegexString ["gpt-*"]).toList.head? = some '^'
    ∧ (wildcardsToRegexString ["gpt-*"]).toList.getLast? = some '$'
    ∧ (endpointsToRegexString ["/v1/\x7bx\x7d/y"]).toList.head? = some '^'
    ∧ (endpointsToRegexString ["/v1/\x7bx\x7d/y"]).toList.getLast? = some '$'
    ∧ wildcardsToRegexString [] = "^(?:)$"
    ∧ endpointsToRegexString [] = "^(?:)$"
    ∧ rustRegexMatch (wildcardsToRegexString []) "x" = some false :=
  regex_compiler_anchored_empty ["gpt-*"] ["/v1/\x7bx\x7d/y"] "x" (by decide)

/-- C7: the escaping pass of `wildcards_to_regex` uses `Regex::replace`,
which rewrites only the FIRST special character, so the wildcard
`a..b` compiles to a pattern whose second dot is a live metacharacter:
the compiled regex accepts `a.xb`, while no wildcard of the ruleset
matches `a.xb` under the specified semantics (star expands to dot-star,
special characters are escaped). -/
theorem wildcard_escape_first_only_bug :
    wildcardsToRegexString ["a..b"] = "^(?:(?:a\\..b))$"
    ∧ rustRegexMatch (wildcardsToRegexString ["a..b"]) "a.xb" = some true
    ∧ specWildcardsMatch ["a..b"] "a.xb" = false
    ∧ specWildcardsMatch ["a..b"] "a..b" = true := by
  refine ⟨by decide, by decide, ?_, ?_⟩
  · simp [specWildcardsMatch, wcMatch]
  · simp [specWildcardsMatch, wcMatch]

/-- C4 counterexample: the default ModelOption does NOT disallow
nothing — its disallow pattern (caret-dollar) matches the empty model
name, so a request naming the empty model is rejected. -/
theorem model_option_default_rejects_empty_cex :
    defaultModelOption.validate (some "") = .error (.ModelNotAllowed "") := by
  rfl

/-- C4 (amended): a candidate model is accepted exactly when the
disallow regex does not match it and the allow regex does; an omitted
model is accepted exactly when omission is allowed; the default
ModelOption forbids omission and accepts exactly the nonempty
newline-free model names (its allow pattern dot-star does not match a
newline and its disallow pattern matches the empty name). -/
theorem model_option_validate_amended (o : ModelOption) (m : String) :
    (o.validate (some m) = .ok ()
      ↔ (o.disallows m = false ∧ o.allows m = true))
    ∧ (o.validate none = .ok () ↔ o.allow_omitted = true)
    ∧ (defaultModelOption.validate (some m) = .ok ()
        ↔ (m ≠ "" ∧ ∀ c ∈ m.toList, c ≠ '\n'))
    ∧ defaultModelOption.allow_omitted = false := by
  have gen : ∀ o' : ModelOption,
      o'.validate (some m) = .ok ()
        ↔ (o'.disallows m = false ∧ o'.allows m = true) := by
    intro o'
    cases hd : o'.disallows m <;> cases ha : o'.allows m <;>
      simp [ModelOption.validate, hd, ha]
  refine ⟨gen o, ?_, ?_, rfl⟩
  · cases h : o.allow_omitted <;> simp [ModelOption.validate, h]
  · have hd : defaultModelOption.disallows m = decide (m.toList = []) :=
      matchL_eps m.toList
    have ha : defaultModelOption.allows m = m.toList.all (fun c => c ≠ '\n') :=
      matchL_dotStarEps m.toList
    refine (gen defaultModelOption).trans ?_
    rw [hd, ha]
    simp [eq_empty_iff_toList, List.all_eq_true]

/-- C5: on every finite input stream, the tee's primary output carries
the whole stream (Ok chunks and errors, in order), the secondary output
carries exactly the Ok chunks in order, and the two outputs agree on the
Ok prefix (the chunks before the first error or end of stream). -/
theorem outChunks_teeSends1 {E T : Type} :
    ∀ (input : List (Except E T)) (i : Nat),
      outChunks (teeSends1 i input) = input.filter isOkB := by
  intro input
  induction input with
  | nil => intro i; rfl
  | cons x rest ih =>
    intro i
    have ihm := ih (i + 1)
    simp only [outChunks] at ihm
    cases x with
    | ok t => simp [teeSends1, outChunks, TeeSend.payload, List.filter_cons,
        isOkB, ihm]
    | error e => simp [teeSends1, outChunks, List.filter_cons, isOkB, ihm]

theorem outChunks_teeSends2 {E T : Type} :
    ∀ (input : List (Except E T)) (i : Nat),
      outChunks (teeSends2 i input) = input := by
  intro input
  induction input with
  | nil => intro i; rfl
  | cons x rest ih =>
    intro i
    have ihm := ih (i + 1)
    simp only [outChunks] at ihm
    cases x with
    | ok t => simp [teeSends2, outChunks, TeeSend.payload, ihm]
    | error e => simp [teeSends2, outChunks, TeeSend.payload, ihm]

theorem teeSends1_ok {E T : Type} :
    ∀ (input : List (Except E T)) (i : Nat), ∀ x ∈ teeSends1 i input,
      ∃ p t, x = TeeSend.sendOk p t := by
  intro input
  induction input with
  | nil => intro i x hx; cases hx
  | cons c rest ih =>
    intro i x hx
    cases c with
    | ok t =>
      rcases List.mem_cons.mp hx with hx1 | hx2
      · exact ⟨i, t, hx1⟩
      · exact ih (i + 1) x hx2
    | error e => exact ih (i + 1) x hx

theorem teeSends1_pos_ge {E T : Type} :
    ∀ (input : List (Except E T)) (i : Nat), ∀ x ∈ teeSends1 i input,
      i ≤ x.originPos := by
  intro input
  induction input with
  | nil => intro i x hx; cases hx
  | cons c rest ih =>
    intro i x hx
    cases c with
    | ok t =>
      rcases List.mem_cons.mp hx with hx1 | hx2
      · subst hx1; exact Nat.le_refl i
      · exact Nat.le_of_succ_le (ih (i + 1) x hx2)
    | error e => exact Nat.le_of_succ_le (ih (i + 1) x hx)

theorem teeSends2_pos_ge {E T : Type} :
    ∀ (input : List (Except E T)) (i : Nat), ∀ x ∈ teeSends2 i input,
      i ≤ x.originPos := by
  intro input
  induction input with
  | nil => intro i x hx; cases hx
  | cons c rest ih =>
    intro i x hx
    cases c with
    | ok t =>
      rcases List.mem_cons.mp hx with hx1 | hx2
      · subst hx1; exact Nat.le_refl i
      · exact Nat.le_of_succ_le (ih (i + 1) x hx2)
    | error e =>
      rcases List.mem_cons.mp hx with hx1 | hx2
      · subst hx1; exact Nat.le_refl i
      · exact Nat.le_of_succ_le (ih (i + 1) x hx2)

theorem teeAdmissible_teeSends1 {E T : Type} :
    ∀ (input : List (Except E T)) (i : Nat),
      teeAdmissible (teeSends1 i input) := by
  intro input
  induction input with
  | nil => intro i; exact List.Pairwise.nil
  | cons c rest ih =>
    intro i
    cases c with
    | ok t =>
      refine List.Pairwise.cons ?_ (ih (i + 1))
      intro y hy hcon
      have hge := teeSends1_pos_ge rest (i + 1) y hy
      have hlt := hcon.2
      rw [show (TeeSend.sendOk i t : TeeSend E T).originPos = i from rfl]
        at hlt
      omega
    | error e => exact ih (i + 1)

theorem teeAdmissible_teeSends2 {E T : Type} :
    ∀ (input : List (Except E T)) (i : Nat),
      teeAdmissible (teeSends2 i input) := by
  intro input
  induction input with
  | nil => intro i; exact List.Pairwise.nil
  | cons c rest ih =>
    intro i
    cases c with
    | ok t =>
      refine List.Pairwise.cons ?_ (ih (i + 1))
      intro y hy hcon
      have hge := teeSends2_pos_ge rest (i + 1) y hy
      have hlt := hcon.2
      rw [show (TeeSend.sendOk i t : TeeSend E T).originPos = i from rfl]
        at hlt
      omega
    | error e =>
      refine List.Pairwise.cons ?_ (ih (i + 1))
      intro y hy hcon
      have hge := teeSends2_pos_ge rest (i + 1) y hy
      have hlt := hcon.2
      rw [show (TeeSend.sendErr i e : TeeSend E T).originPos = i from rfl]
        at hlt
      omega

theorem take_filter_okPre {E T : Type} :
    ∀ input : List (Except E T),
      (input.filter isOkB).take (okPre input).length = okPre input := by
  intro input
  induction input with
  | nil => rfl
  | cons x rest ih =>
    cases x with
    | ok t =>
      simpa [List.filter_cons, okPre, List.takeWhile_cons, isOkB] using ih
    | error e => simp [List.filter_cons, okPre, List.takeWhile_cons, isOkB]

/-- C5 counterexample: two executions of the tee that the source's
spawn semantics admits and that break the claimed ordering.  In the
first, the inline error send overtakes the still-pending spawned Ok
send on the primary output, so the primary's Ok prefix is empty while
the secondary's is not.  In the second, the two spawned Ok sends reach
the first consumer in swapped order, so the two outputs carry the same
chunks in DIFFERENT orders. -/
theorem tee_out_of_order_cex :
    teeExecValid [Except.ok 1, Except.error ()] errOvertakeExec
    ∧ okPre (outChunks errOvertakeExec.out2) = []
    ∧ okPre (outChunks errOvertakeExec.out1) = [Except.ok 1]
    ∧ teeExecValid [Except.ok 1, Except.ok 2] swappedOkExec
    ∧ outChunks swappedOkExec.out1 = [Except.ok 2, Except.ok 1]
    ∧ outChunks swappedOkExec.out2 = [Except.ok 1, Except.ok 2] := by
  refine ⟨by decide, rfl, rfl, by decide, rfl, rfl⟩

/-- C5 (amended): in every admissible execution, each Ok chunk is
delivered to BOTH consumers and each error only to the primary — the
first output is a permutation of the input's Ok chunks (and never
carries an error) and the primary output a permutation of the whole
input; the delivery ORDER, however, is not guaranteed: the claimed
Ok-prefix equality of the two outputs holds for the in-loop-order
execution (which is admissible), not for every execution. -/
theorem tee_exec_content {E T : Type} (input : List (Except E T))
    (ex : TeeExec E T) (h : teeExecValid input ex) :
    (outChunks ex.out1).Perm (input.filter isOkB)
    ∧ (outChunks ex.out2).Perm input
    ∧ (∀ x ∈ outChunks ex.out1, isOkB x = true)
    ∧ teeExecValid input (inOrderExec input)
    ∧ outChunks (inOrderExec input).out1 = input.filter isOkB
    ∧ outChunks (inOrderExec input).out2 = input
    ∧ (outChunks (inOrderExec input).out1).take (okPre input).length
        = okPre input
    ∧ okPre (outChunks (inOrderExec input).out2) = okPre input := by
  obtain ⟨hp1, hp2, _, _⟩ := h
  refine ⟨?_, ?_, ?_, ?_, ?_, ?_, ?_, ?_⟩
  · have := hp1.map TeeSend.payload
    rwa [show (teeSends1 0 input).map TeeSend.payload
        = input.filter isOkB from outChunks_teeSends1 input 0] at this
  · have := hp2.map TeeSend.payload
    rwa [show (teeSends2 0 input).map TeeSend.payload
        = input from outChunks_teeSends2 input 0] at this
  · intro x hx
    obtain ⟨s, hs, hsx⟩ := List.mem_map.mp hx
    obtain ⟨p, t, hst⟩ := teeSends1_ok input 0 s (hp1.mem_iff.mp hs)
    rw [← hsx, hst]
    rfl
  · exact ⟨List.Perm.refl _, List.Perm.refl _,
      teeAdmissible_teeSends1 input 0, teeAdmissible_teeSends2 input 0⟩
  · exact outChunks_teeSends1 input 0
  · exact outChunks_teeSends2 input 0
  · rw [show outChunks (inOrderExec input).out1 = input.filter isOkB from
      outChunks_teeSends1 input 0]
    exact take_filter_okPre input
  · rw [show outChunks (inOrderExec input).out2 = input from
      outChunks_teeSends2 input 0]

/-- C5 witness: the amended statement at a concrete two-chunk stream
and its in-loop-order execution. -/
theorem tee_exec_content_witness :
    (outChunks (inOrderExec [Except.ok 1, Except.error ()]).out2).Perm
      [Except.ok (1 : Nat), Except.error ()]
    ∧ outChunks (inOrderExec [Except.ok (1 : Nat), Except.error ()]).out2
        = [Except.ok 1, Except.error ()]
    ∧ (∀ x ∈ outChunks
          (inOrderExec [Except.ok (1 : Nat), Except.error ()]).out1,
        isOkB x = true) :=
  ⟨(tee_exec_content [Except.ok 1, Except.error ()]
      (inOrderExec [Except.ok 1, Except.error ()]) (by decide)).2.1,
   (tee_exec_content [Except.ok 1, Except.error ()]
      (inOrderExec [Except.ok 1, Except.error ()]) (by decide)).2.2.2.2.2.1,
   (tee_exec_content [Except.ok 1, Except.error ()]
      (inOrderExec [Except.ok 1, Except.error ()]) (by decide)).2.2.1⟩

theorem poolStep_inv (l : List String) (st : PoolSt) (op : PoolOp)
    (h : poolInv l st) : poolInv l (poolStep st op) := by
  obtain ⟨h1, h2, h3⟩ := h
  cases op with
  | acquire =>
    by_cases hp : st.permits = 0
    · simpa [poolStep, poolGet, hp] using ⟨h1, h2, h3⟩
    · cases hk : st.keys with
      | nil => simpa [poolStep, poolGet, hp, hk] using ⟨h1, h2, h3⟩
      | cons k rest =>
        have hlen : rest.length + 1 = st.permits := by
          simpa [hk] using h2
        have hstep : poolStep st .acquire
            = { keys := rest, permits := st.permits - 1,
                leased := st.leased ++ [k] } := by
          simp [poolStep, poolGet, hp, hk]
        rw [hstep]
        refine ⟨?_, ?_, ?_⟩
        · simp only [List.length_append, List.length_cons, List.length_nil]
          omega
        · simp only []
          omega
        · show (rest ++ (st.leased ++ [k])).Perm l
          rw [← List.append_assoc]
          refine (List.perm_append_singleton _ _).trans ?_
          show ((k :: rest) ++ st.leased).Perm l
          rw [← hk]
          exact h3
  | release k =>
    by_cases hm : st.leased.contains k
    · have hkmem : k ∈ st.leased := by simpa using hm
      have hlpos : 0 < st.leased.length :=
        List.length_pos.mpr (List.ne_nil_of_mem hkmem)
      have hel : (st.leased.erase k).length = st.leased.length - 1 :=
        List.length_erase_of_mem hkmem
      have hstep : poolStep st (.release k)
          = { keys := st.keys ++ [k], permits := st.permits + 1,
              leased := st.leased.erase k } := by
        simp [poolStep, hm, hkmem]
      rw [hstep]
      refine ⟨?_, ?_, ?_⟩
      · simp only [hel]
        omega
      · simp [List.length_append, h2]
      · show ((st.keys ++ [k]) ++ st.leased.erase k).Perm l
        rw [List.append_assoc]
        refine (List.Perm.append_left st.keys ?_).trans h3
        exact (List.perm_cons_erase hkmem).symm
    · have hknot : k ∉ st.leased := by simpa using hm
      simpa [poolStep, hknot] using ⟨h1, h2, h3⟩

theorem poolRun_inv (l : List String) (ops : List PoolOp) :
    poolInv l (poolRun l ops) := by
  suffices hgen : ∀ st, poolInv l st → poolInv l (ops.foldl poolStep st) by
    refine hgen (poolNew l) ⟨by simp [poolNew], by simp [poolNew], ?_⟩
    simp [poolNew]
  induction ops with
  | nil => exact fun _ h => h
  | cons op rest ih =>
    exact fun st h => ih (poolStep st op) (poolStep_inv l st op h)

/-- C1: for every pool built from a credential list and every sequence
of acquire and release operations, the number of leased credentials plus
the available permits equals the capacity, the queue length equals the
available permits, and the queue plus the leases hold exactly the
original credentials; moreover an acquisition pops the FRONT credential
of the queue and a guard drop pushes its credential to the TAIL, so the
rotation is FIFO. -/
theorem key_pool_fifo_invariant (l : List String) (ops : List PoolOp) :
    poolInv l (poolRun l ops)
    ∧ (∀ st : PoolSt, ∀ k : String, ∀ rest : List String,
        st.keys = k :: rest → st.permits ≠ 0 →
        poolGet st = some (k,
          { keys := rest, permits := st.permits - 1,
            leased := st.leased ++ [k] }))
    ∧ (∀ st : PoolSt, ∀ k : String, st.leased.contains k = true →
        poolStep st (.release k)
          = { keys := st.keys ++ [k], permits := st.permits + 1,
              leased := st.leased.erase k }) := by
  refine ⟨poolRun_inv l ops, ?_, ?_⟩
  · intro st k rest hk hp
    simp [poolGet, hp, hk]
  · intro st k hm
    have hkmem : k ∈ st.leased := by simpa using hm
    simp [poolStep, hm, hkmem]

/-- C1 witness: the invariant after one acquisition followed by the
release of the leased credential, the front pop of a concrete
acquisition and the tail push of a concrete release. -/
theorem key_pool_fifo_invariant_witness :
    poolInv ["k1", "k2"] (poolRun ["k1", "k2"] [.acquire, .release "k1"])
    ∧ poolGet (poolNew ["k1", "k2"])
        = some ("k1", { keys := ["k2"], permits := 1, leased := ["k1"] })
    ∧ poolStep { keys := ["k2"], permits := 1, leased := ["k1"] }
        (.release "k1")
        = { keys := ["k2", "k1"], permits := 2, leased := [] } := by
  refine ⟨(key_pool_fifo_invariant ["k1", "k2"] [.acquire, .release "k1"]).1,
    ?_, ?_⟩
  · exact (key_pool_fifo_invariant ["k1", "k2"] []).2.1
      (poolNew ["k1", "k2"]) "k1" ["k2"] rfl (by decide)
  · have h := (key_pool_fifo_invariant ["k1", "k2"] []).2.2
      { keys := ["k2"], permits := 1, leased := ["k1"] } "k1" (by decide)
    simpa using h

theorem dropPre_append (p : List Char) :
    ∀ l rest, dropPre p l = some rest → l = p ++ rest := by
  induction p with
  | nil =>
    intro l rest h
    simp only [dropPre, Option.some.injEq] at h
    simp [h]
  | cons pc ps ih =>
    intro l rest h
    cases l with
    | nil => simp [dropPre] at h
    | cons c cs =>
      simp only [dropPre] at h
      by_cases hpc : pc = c
      · rw [if_pos hpc] at h
        rw [List.cons_append, hpc, ih cs rest h]
      · rw [if_neg hpc] at h
        cases h

theorem deploymentCaptureL_append {l idL remL : List Char}
    (h : deploymentCaptureL l = some (idL, remL)) :
    l = "/engines/".toList ++ idL ++ remL := by
  unfold deploymentCaptureL at h
  cases hdp : dropPre "/engines/".toList l with
  | none => rw [hdp] at h; cases h
  | some rest =>
    rw [hdp] at h
    have hl : l = "/engines/".toList ++ rest := dropPre_append _ _ _ hdp
    simp only at h
    split at h
    · obtain ⟨hid, hrem⟩ := Prod.mk.injEq .. ▸ (Option.some.injEq .. ▸ h)
      rw [hl, ← List.takeWhile_append_dropWhile (fun c => decide (c ≠ '/')) rest,
        hid, hrem, List.append_assoc]
    · cases h

/-- C2: `validate` applies its gates in order.  First the method gate:
a method whose policy entry is not `true` is rejected.  Then the
deployment gate: when the path carries a deployment id, an id outside
the allow set is rejected, and an allowed id makes all remaining checks
run on the path with the engines prefix stripped (the path decomposes as
the engines prefix, the id and the remainder).  Then the endpoint gate:
the request is rejected exactly when the whitelist flag disagrees with
the per-method regex match of the remaining path, an absent regex
counting as no match. -/
theorem acl_validate_gate_order (acl : ApiAcl) (method path : String) :
    ((acl.methods method).getD false = false →
      acl.validate method path = .error (.MethodNotAllowed method))
    ∧ ((acl.methods method).getD false = true →
        (∀ id rem, deploymentCapture path = some (id, rem) →
          path = "/engines/" ++ id ++ rem
          ∧ (acl.allow_deployments id = false →
              acl.validate method path = .error (.DeploymentNotAllowed id))
          ∧ (acl.allow_deployments id = true →
              acl.validate method path = acl.validateEndpoint method rem))
        ∧ (deploymentCapture path = none →
            acl.validate method path = acl.validateEndpoint method path))
    ∧ (∀ ep, acl.validateEndpoint method ep
          = .error (.EndpointNotAllowed method ep)
        ↔ ((acl.whitelist = true
              ∧ ((acl.endpoint method).map (fun re => re ep)).getD false
                  = false)
            ∨ (acl.whitelist = false
              ∧ ((acl.endpoint method).map (fun re => re ep)).getD false
                  = true))) := by
  refine ⟨?_, ?_, ?_⟩
  · intro h
    simp [ApiAcl.validate, h]
  · intro hm
    constructor
    · intro id rem hcap
      obtain ⟨⟨idL, remL⟩, hcl, heq⟩ := Option.map_eq_some'.mp hcap
      obtain ⟨hid, hrem⟩ := Prod.mk.injEq .. ▸ heq
      refine ⟨?_, ?_, ?_⟩
      · have happ := deploymentCaptureL_append hcl
        calc path = String.mk path.toList := rfl
          _ = String.mk ("/engines/".toList ++ idL ++ remL) := by rw [← happ]
          _ = "/engines/" ++ id ++ rem := by
                rw [mk_append, mk_append, ← hid, ← hrem]
                rfl
      · intro hallow
        have hcl2 : deploymentCaptureL path.data = some (idL, remL) := hcl
        simp [ApiAcl.validate, hm, hcl2, hid, hallow]
      · intro hallow
        have hcl2 : deploymentCaptureL path.data = some (idL, remL) := hcl
        simp [ApiAcl.validate, hm, hcl2, hid, hrem, hallow]
    · intro hnone
      have hcl : deploymentCaptureL path.data = none := by
        cases hq : deploymentCaptureL path.data with
        | none => rfl
        | some q =>
          rw [deploymentCapture] at hnone
          rw [show path.toList = path.data from rfl, hq] at hnone
          cases hnone
      simp [ApiAcl.validate, hm, hcl]
  · intro ep
    cases hw : acl.whitelist <;>
      cases hb : ((acl.endpoint method).map (fun re => re ep)).getD false <;>
      simp [ApiAcl.validateEndpoint, hw, hb]

/-- C2 witness: the gate chain evaluated on the sample policy — a
rejected method, a rejected deployment id, the prefix decomposition and
strip for an allowed id, and a rejected endpoint. -/
theorem acl_validate_gate_order_witness :
    aclEx.validate "DELETE" "/completions"
      = .error (.MethodNotAllowed "DELETE")
    ∧ ("/engines/prod-1/completions" : String)
        = "/engines/" ++ "prod-1" ++ "/completions"
    ∧ aclEx.validate "POST" "/engines/bad/x"
        = .error (.DeploymentNotAllowed "bad")
    ∧ aclEx.validate "POST" "/engines/prod-1/completions"
        = aclEx.validateEndpoint "POST" "/completions"
    ∧ aclEx.validateEndpoint "POST" "/x"
        = .error (.EndpointNotAllowed "POST" "/x") := by
  refine ⟨?_, ?_, ?_, ?_, ?_⟩
  · exact (acl_validate_gate_order aclEx "DELETE" "/completions").1 (by decide)
  · exact (((acl_validate_gate_order aclEx "POST"
      "/engines/prod-1/completions").2.1 (by decide)).1 "prod-1"
      "/completions" (by decide)).1
  · exact (((acl_validate_gate_order aclEx "POST"
      "/engines/bad/x").2.1 (by decide)).1 "bad" "/x" (by decide)).2.1
      (by decide)
  · exact (((acl_validate_gate_order aclEx "POST"
      "/engines/prod-1/completions").2.1 (by decide)).1 "prod-1"
      "/completions" (by decide)).2.2 (by decide)
  · exact ((acl_validate_gate_order aclEx "POST" "").2.2 "/x").mpr
      (Or.inl ⟨by decide, by decide⟩)

/-- C6 counterexample: in the ACL evaluator path a missing model is NOT
a 400 — the selected validator turns the missing model into the
envelope with status 403 (the `AclError::status_code` catch-all). -/
theorem missing_model_status_cex :
    (match aclModelEx.validate "POST" "/chat/completions" with
      | .ok (some v) => globalAclBodyCheck v (JVal.obj [])
      | _ => .ok ()) = .error { status := 403, message := "Missing model" }
    ∧ (ErrorResponse.fromAcl .MissingModel).status ≠ 400 := by
  exact ⟨rfl, by decide⟩

/-- C6 (amended): a request body lacking the required model field is
answered with the error envelope in both paths, but with DIFFERENT
statuses — the ACL evaluator path produces status 403 with the message
`Missing model`, while the token-accounting layer produces status 400
with the message naming the missing field. -/
theorem missing_model_status_amended (o : ModelOption) (json : JVal)
    (cfg : TokensFilters) (req : TokReq) (rayId : String) (body : JVal)
    (ho : o.allow_omitted = false)
    (hjson : (json.get "model").bind JVal.asStr = none)
    (hcfg1 : cfg.enable = true)
    (hcfg2 : cfg.endpoints.contains req.path = true)
    (hray : hGet rayIdHeaderName req.headers = some rayId)
    (hread : req.bodyReadOk = true)
    (hbody : req.bodyJson = some body)
    (hmodel : body.get "model" = none) :
    globalAclBodyCheck (.viaBody o) json
      = .error { status := 403, message := "Missing model" }
    ∧ auditTokensLayer (some cfg) req
        = .reject { status := 400, message := "missing \x27model\x27 field in request body" } := by
  have hcfg2m : req.path ∈ cfg.endpoints := by simpa using hcfg2
  constructor
  · simp [globalAclBodyCheck, ModelValidatorSel.validateBody, hjson,
      ModelOption.validate, ho, ErrorResponse.fromAcl, AclError.statusCode,
      AclError.toMessage, Except.mapError]
  · simp [auditTokensLayer, hcfg1, hcfg2, hcfg2m, hray, hread, hbody, hmodel]

/-- C6 witness: the amended statement at the default ModelOption, an
empty JSON object body and a concrete token-layer configuration and
request. -/
theorem missing_model_status_amended_witness :
    globalAclBodyCheck (.viaBody defaultModelOption) (JVal.obj [])
      = .error { status := 403, message := "Missing model" }
    ∧ auditTokensLayer
        (some { enable := true, endpoints := ["/chat/completions"],
                stream_tokens := .Estimate })
        { path := "/chat/completions",
          headers := [(rayIdHeaderName, "ray0")],
          bodyReadOk := true, bodyJson := some (JVal.obj []) }
        = .reject { status := 400, message := "missing \x27model\x27 field in request body" } :=
  missing_model_status_amended defaultModelOption (JVal.obj [])
    { enable := true, endpoints := ["/chat/completions"],
      stream_tokens := .Estimate }
    { path := "/chat/completions",
      headers := [(rayIdHeaderName, "ray0")],
      bodyReadOk := true, bodyJson := some (JVal.obj []) }
    "ray0" (JVal.obj []) rfl rfl rfl (by decide) (by decide) rfl rfl rfl

theorem collectOpt_some_of_all {T : Type} (parse : String → Option T) :
    ∀ l : List String, (∀ f ∈ l, (parse f).isSome = true) →
      collectOpt parse l = some (l.filterMap parse) := by
  intro l
  induction l with
  | nil => intro _; rfl
  | cons x xs ih =>
    intro h
    have hx := h x (List.mem_cons_self x xs)
    cases hpx : parse x with
    | none => rw [hpx] at hx; cases hx
    | some t =>
      have hxs := ih (fun f hf => h f (List.mem_cons_of_mem _ hf))
      simp [collectOpt, hpx, hxs, List.filterMap_cons]

theorem collectOpt_none_of_mem {T : Type} (parse : String → Option T) :
    ∀ l : List String, ∀ f ∈ l, parse f = none →
      collectOpt parse l = none := by
  intro l
  induction l with
  | nil => intro f hf; cases hf
  | cons x xs ih =>
    intro f hf hpf
    rcases List.mem_cons.mp hf with hfx | hfxs
    · subst hfx
      simp [collectOpt, hpf]
    · cases hpx : parse x with
      | none => simp [collectOpt, hpx]
      | some t => simp [collectOpt, hpx, ih f hfxs hpf]

/-- C8 counterexample: an incomplete trailing frame that carries the
data marker DOES discard the earlier complete frames (the collect into a
Result fails as a whole and `get_events` yields nothing), and the parser
does not stop at the DONE sentinel — a data frame after it is still
parsed, yielding two events where the claim demands one. -/
theorem get_events_truncated_frame_cex :
    getEvents parseChoicesEv truncatedStreamBody = none
    ∧ getEvents parseChoicesEv frameAfterDoneBody = some [0, 0] := by
  decide

/-- C8 (amended): `get_events` deserialises exactly the data-marked
blank-line-separated frames with the DONE sentinel frames filtered out
(frames after the sentinel are still parsed); when every such frame
deserialises the events come back in order, and when ANY such frame
fails — in particular an incomplete trailing frame that begins with the
data marker — the whole result is none; a trailing fragment without the
data marker is ignored by the frame filter. -/
theorem get_events_frames (parse : String → Option Nat) (body : String) :
    "[DONE]" ∉ framesOf body
    ∧ ((∀ f ∈ framesOf body, (parse f).isSome = true) →
        getEvents parse body = some ((framesOf body).filterMap parse))
    ∧ (∀ f ∈ framesOf body, parse f = none → getEvents parse body = none) := by
  refine ⟨?_, ?_, ?_⟩
  · intro hmem
    have := (List.mem_filter.mp hmem).2
    simp at this
  · exact collectOpt_some_of_all parse _
  · exact collectOpt_none_of_mem parse _

/-- C8 witness: the amended statement on a well-formed stream body
(every frame parses, the sentinel is not among the frames) and on the
truncated body (one failing frame discards the events). -/
theorem get_events_frames_witness :
    "[DONE]" ∉ framesOf wellFormedStreamBody
    ∧ getEvents parseChoicesEv wellFormedStreamBody
        = some ((framesOf wellFormedStreamBody).filterMap parseChoicesEv)
    ∧ getEvents parseChoicesEv truncatedStreamBody = none := by
  refine ⟨(get_events_frames parseChoicesEv wellFormedStreamBody).1,
    (get_events_frames parseChoicesEv wellFormedStreamBody).2.1 (by decide),
    (get_events_frames parseChoicesEv truncatedStreamBody).2.2
      "\x7b\"cho" (by decide) (by decide)⟩

theorem find?_filter_of_ne (n1 n2 : String) (hs : Headers) (h : n1 ≠ n2) :
    (hRemove n2 hs).find? (fun p => p.1 = n1)
      = hs.find? (fun p => p.1 = n1) := by
  induction hs with
  | nil => rfl
  | cons hd tl ih =>
    by_cases hr : hd.1 = n2
    · have hq : ¬(hd.1 = n1) := fun hc => h (hc ▸ hr)
      have hdrop : hRemove n2 (hd :: tl) = hRemove n2 tl := by
        simp only [hRemove, List.filter_cons]
        rw [if_neg (by simp [hr])]
      rw [hdrop, List.find?_cons_of_neg _ (by simp [hq]), ih]
    · have hkeep : hRemove n2 (hd :: tl) = hd :: hRemove n2 tl := by
        simp only [hRemove, List.filter_cons]
        rw [if_pos (by simp [hr])]
      rw [hkeep]
      by_cases hq : hd.1 = n1
      · rw [List.find?_cons_of_pos _ (by simp [hq]),
          List.find?_cons_of_pos _ (by simp [hq])]
      · rw [List.find?_cons_of_neg _ (by simp [hq]),
          List.find?_cons_of_neg _ (by simp [hq]), ih]

theorem hGet_irrelevant (n1 n2 v : String) (hs : Headers) (h : n1 ≠ n2) :
    hGet n1 (hInsert n2 v (hRemove n2 hs)) = hGet n1 hs := by
  have hsing : List.find? (fun p => p.1 = n1) [(n2, v)] = none := by
    simp [List.find?, Ne.symm h]
  simp only [hGet, hInsert]
  rw [List.find?_append, find?_filter_of_ne n1 n2 hs h, hsing, Option.or_none]

/-- C9: the composed pipeline runs the audit access layer BEFORE the
bearer-token verifier, and the access layer copies the record's user
from the identity header of the request as received, so a request
carrying a client-supplied identity header value yields an access record
whose user is that value — whatever the verifier later concludes. -/
theorem audit_access_user_before_jwt (cfg : AccessFilters) (rayId : String)
    (verify : String → Option JwtClaims) (now : Nat) (req : Req) (v : String)
    (h : hGet authedHeaderName req.headers = some v) :
    (servePipelineFront cfg rayId verify now req).1.user = some v := by
  have hkeep := hGet_irrelevant authedHeaderName rayIdHeaderName rayId
    req.headers (by decide)
  simp [servePipelineFront, auditAccessCapture, hkeep, h]

/-- C9 witness: a request whose client-supplied identity header says
`mallory` while the verifier concludes `alice` still yields an access
record naming `mallory`. -/
theorem audit_access_user_before_jwt_witness :
    (servePipelineFront
      { enable := true, method := true, uri := true, headers := false,
        body := false, response := false }
      "ray0123456789abc"
      (fun _ => some { sub := some "alice", nbf := none, exp := none })
      1000
      { method := "POST", path := "/v1/chat/completions",
        headers := [(authedHeaderName, "mallory"),
                    ("Authorization", "Bearer t")] }).1.user
      = some "mallory" :=
  audit_access_user_before_jwt _ _ _ _ _ "mallory" (by decide)

/-- C10: `audit_tokens_layer` unwraps the ray-id header, so every
request that passes its enablement gates (configured, tokens filter
enabled, path among the accounted endpoints) but carries no ray-id
header makes the layer panic instead of answering. -/
theorem tokens_layer_missing_ray_id_panics (cfg : TokensFilters)
    (req : TokReq) (h1 : cfg.enable = true)
    (h2 : cfg.endpoints.contains req.path = true)
    (h3 : hGet rayIdHeaderName req.headers = none) :
    auditTokensLayer (some cfg) req = .panics := by
  have h2m : req.path ∈ cfg.endpoints := by simpa using h2
  simp [auditTokensLayer, h1, h2, h2m, h3]

/-- C10 witness: a token-accounted request with no ray-id header (the
access layer that would insert it being disabled) panics the layer. -/
theorem tokens_layer_missing_ray_id_panics_witness :
    auditTokensLayer
      (some { enable := true, endpoints := ["/chat/completions"],
              stream_tokens := .Estimate })
      { path := "/chat/completions", headers := [],
        bodyReadOk := true, bodyJson := some (JVal.obj []) }
      = .panics :=
  tokens_layer_missing_ray_id_panics _ _ rfl (by decide) rfl

end OpenAIHub
